import Mathlib

/-!
A shallow embedding of the order-matching / position / risk core of the
`futures-backtesting` repository (Python), together with theorems checking the
natural-language specification against it.

Modelling conventions:
* Python `float` prices and equity are modelled as `ℚ`; contract sizes as `ℤ`.
* `datetime` timestamps are modelled as a calendar-day ordinal plus minutes
  since midnight (`Timestamp`); only `.date()` equality and time-of-day
  comparison are used by the source.
* Python objects shared between `self.orders`, `self._pending_orders` and
  `self._bracket_children` are modelled by keeping one canonical store
  (`OrderManager.orders`, an insertion-ordered association list, as a Python
  dict is) and referring to orders by id everywhere else, so that a mutation
  through one alias is visible through all of them, exactly as in the source.
* `uuid.uuid4()` id generation is modelled by a deterministic counter
  (`nextId`); the source only relies on freshness of the generated ids.
-/

namespace FB

/-- Calendar timestamp: `day` is a date ordinal (compared for equality by the
day-rollover check, `timestamp.date()` in the source), `minute` is minutes
since midnight (the source compares `timestamp.time()` with the parsed
`position_close_time`). -/
structure Timestamp where
  day : ℕ
  minute : ℕ
deriving DecidableEq

/-- Enum `OrderSide` from `core/orders.py`. -/
inductive OrderSide where
  | buy
  | sell
deriving DecidableEq

/-- Enum `OrderType` from `core/orders.py` (lines 11-16).  The Python attribute
`Order.order_type` is dynamically typed: the enum defines the four recognized
variants, and `process_pending` merely compares the attribute against
`OrderType.MARKET` / `LIMIT` / `STOP` with `==`.  The extra constructor
`other tag` models any non-enum value a caller may store in the attribute
(such a value falls through every comparison, as in Python). -/
inductive OrderType where
  | market
  | limit
  | stop
  | stop_limit
  | other (tag : String)
deriving DecidableEq

/-- Enum `OrderStatus` from `core/orders.py` (lines 19-25); `OPEN` is rendered
`open'` because `open` is a Lean keyword. -/
inductive OrderStatus where
  | pending
  | open'
  | filled
  | cancelled
  | rejected
deriving DecidableEq

/-- The `Order` dataclass from `core/orders.py` (lines 34-76). -/
structure Order where
  symbol : String
  side : OrderSide
  size : ℤ
  order_type : OrderType
  price : Option ℚ := none
  stop_price : Option ℚ := none
  order_id : String
  timestamp : Option Timestamp := none
  status : OrderStatus := OrderStatus.pending
  fill_price : Option ℚ := none
  fill_time : Option Timestamp := none
  oco_id : Option String := none
  parent_id : Option String := none
deriving DecidableEq

/-- Predicate `Order.is_buy` (line 63). -/
def Order.is_buy (o : Order) : Bool :=
  match o.side with
  | .buy => true
  | .sell => false

/-- Predicate `Order.is_sell` (line 66). -/
def Order.is_sell (o : Order) : Bool :=
  match o.side with
  | .buy => false
  | .sell => true

/-- Predicate `Order.is_active` (line 72): status in `[PENDING, OPEN]`. -/
def Order.is_active (o : Order) : Bool :=
  match o.status with
  | .pending => true
  | .open' => true
  | _ => false

/-- One entry of `Position.trades` (appended at lines 111-116). -/
structure TradeRec where
  timestamp : Timestamp
  price : ℚ
  size : ℤ
  position_after : ℤ
deriving DecidableEq

/-- The `Position` dataclass from `core/orders.py` (lines 79-137). -/
structure Position where
  symbol : String
  size : ℤ := 0
  avg_entry_price : ℚ := 0
  trades : List TradeRec := []
deriving DecidableEq

/-- Method `Position.update` (lines 89-116), translated branch for branch.  The
four cases: new position from flat; same-direction add (volume-weighted
average); partial close (`abs(fill_size) < abs(self.size)`); full close or
reversal.  A history record is appended at the end with `position_after`
equal to the already-updated size. -/
def Position.update (p : Position) (fill_price : ℚ) (fill_size : ℤ)
    (timestamp : Timestamp) : Position :=
  let p' :=
    if p.size = 0 then
      { p with avg_entry_price := fill_price, size := fill_size }
    else if 0 < p.size * fill_size then
      let total_value : ℚ := (p.size : ℚ) * p.avg_entry_price + (fill_size : ℚ) * fill_price
      let newSize := p.size + fill_size
      { p with size := newSize, avg_entry_price := total_value / (newSize : ℚ) }
    else if fill_size.natAbs < p.size.natAbs then
      { p with size := p.size + fill_size }
    else
      let remaining := fill_size + p.size
      { p with size := remaining,
               avg_entry_price := if remaining ≠ 0 then fill_price else 0 }
  { p' with trades := p'.trades ++
      [{ timestamp := timestamp, price := fill_price, size := fill_size,
         position_after := p'.size }] }

/-- Method `Position.unrealized_pnl` (lines 118-124). -/
def Position.unrealized_pnl (p : Position) (current_price tick_value tick_size : ℚ) : ℚ :=
  if p.size = 0 then 0
  else ((current_price - p.avg_entry_price) / tick_size) * tick_value * (p.size : ℚ)

/-- One OHLCV bar (the `open` field is `open_` because `open` is a Lean
keyword; `volume` is carried nowhere into the matching logic and is omitted). -/
structure Bar where
  open_ : ℚ
  high : ℚ
  low : ℚ
  close : ℚ
deriving DecidableEq

/-- The per-order fill rule of `OrderManager.process_pending`
(`core/orders.py` lines 291-309): given an order and the bar for its symbol,
the fill price it would receive on this pass, or `none` when it does not
match.  `MARKET` fills at the open; `LIMIT`/`STOP` use the gap-aware
min/max expressions of the source; `STOP_LIMIT` (and any unrecognized kind)
falls through every branch, leaving `fill_price = None`.  The source reads
`order.price` / `order.stop_price` assuming they are set for the relevant
kinds (a `None` there would raise a `TypeError` in Python; no claim
exercises that path), modelled by `Option.getD 0`. -/
def tryFill (o : Order) (bar : Bar) : Option ℚ :=
  match o.order_type with
  | .market => some bar.open_
  | .limit =>
      if o.is_buy && decide (bar.low ≤ o.price.getD 0) then
        some (if bar.open_ ≤ o.price.getD 0 then min (o.price.getD 0) bar.open_
              else o.price.getD 0)
      else if o.is_sell && decide (bar.high ≥ o.price.getD 0) then
        some (if bar.open_ ≥ o.price.getD 0 then max (o.price.getD 0) bar.open_
              else o.price.getD 0)
      else none
  | .stop =>
      if o.is_buy && decide (bar.high ≥ o.stop_price.getD 0) then
        some (if bar.open_ ≥ o.stop_price.getD 0 then max (o.stop_price.getD 0) bar.open_
              else o.stop_price.getD 0)
      else if o.is_sell && decide (bar.low ≤ o.stop_price.getD 0) then
        some (if bar.open_ ≤ o.stop_price.getD 0 then min (o.stop_price.getD 0) bar.open_
              else o.stop_price.getD 0)
      else none
  | .stop_limit => none
  | .other _ => none

/-! Section: Association lists

Python `dict`s (`self.orders`, `self.positions`, `self._oco_groups`,
`self._bracket_children`) preserve insertion order; they are modelled as
association lists.  `updList` inserts or overwrites in place, `getL` looks up,
`removeL` models `del` (keys are unique because every write goes through
`updList`). -/

def updList {V : Type} : List (String × V) → String → V → List (String × V)
  | [], k, v => [(k, v)]
  | (k', v') :: rest, k, v =>
      if k' = k then (k, v) :: rest else (k', v') :: updList rest k v

def getL {V : Type} : List (String × V) → String → Option V
  | [], _ => none
  | (k', v) :: rest, k => if k' = k then some v else getL rest k

def removeL {V : Type} : List (String × V) → String → List (String × V)
  | [], _ => []
  | (k', v) :: rest, k =>
      if k' = k then removeL rest k else (k', v) :: removeL rest k

/-- The `OrderManager` state (`core/orders.py` lines 140-148).  `pending`
holds the ids of the orders in `self._pending_orders` (the list itself holds
aliases of the objects stored in `self.orders`); `bracket_children` maps an
entry id to the ids of its (take-profit, stop-loss) children, whose objects
are likewise stored in `orders` (lines 243-244 of the source).  `nextId`
feeds the fresh-id generation that the source performs with `uuid4`. -/
structure OrderManager where
  orders : List (String × Order) := []
  positions : List (String × Position) := []
  pending : List String := []
  oco_groups : List (String × List String) := []
  bracket_children : List (String × (String × String)) := []
  nextId : ℕ := 0
deriving DecidableEq

def OrderManager.empty : OrderManager := {}

/-- Method `OrderManager.submit_order` (lines 150-161): store the order, append it to
the pending list, and register OCO-group membership when `oco_id` is set.
There is no validation of any kind; the order's status is stored as given. -/
def submit_order (st : OrderManager) (o : Order) : OrderManager × String :=
  let st1 := { st with orders := updList st.orders o.order_id o,
                       pending := st.pending ++ [o.order_id] }
  let st2 :=
    match o.oco_id with
    | some g =>
        { st1 with oco_groups :=
            updList st1.oco_groups g ((getL st1.oco_groups g).getD [] ++ [o.order_id]) }
    | none => st1
  (st2, o.order_id)

/-- One iteration of the OCO-cascade loop (`linked_id != order_id and
linked_id in self.orders` and `linked_order.is_active()`): mark the linked
order cancelled when it is a different, known, still-active order. -/
def cancelOneSibling (keep : String) (os : List (String × Order)) (lid : String) :
    List (String × Order) :=
  if lid ≠ keep then
    match getL os lid with
    | some lo => if lo.is_active then updList os lid { lo with status := .cancelled } else os
    | none => os
  else os

/-- The OCO-cascade loop shared by `cancel_order` (lines 181-186) and
`process_pending` (lines 332-337): walk the group's member ids and mark every
still-active member other than `keep` cancelled.  Only the order store is
touched. -/
def cancelSiblingsOrders (orders : List (String × Order)) (group : List String)
    (keep : String) : List (String × Order) :=
  group.foldl (cancelOneSibling keep) orders

/-- Method `OrderManager.cancel_order` (lines 163-188).  Returns `false` for an
unknown or inactive order; otherwise marks it cancelled and, when
`cancel_linked_oco` is set and the order carries an OCO id, cancels the other
active members of the group.  Note that the order is *not* removed from the
pending list. -/
def cancel_order (st : OrderManager) (oid : String) (cancel_linked_oco : Bool) :
    OrderManager × Bool :=
  match getL st.orders oid with
  | none => (st, false)
  | some o =>
      if o.is_active then
        let st1 := { st with orders := updList st.orders oid { o with status := .cancelled } }
        let st2 :=
          if cancel_linked_oco then
            match o.oco_id with
            | some g => { st1 with orders := cancelSiblingsOrders st1.orders ((getL st1.oco_groups g).getD []) oid }
            | none => st1
          else st1
        (st2, true)
      else (st, false)

/-- Fresh id generation (the source calls `str(uuid.uuid4())[:8]`). -/
def freshOcoId (n : ℕ) : String := "oco" ++ toString n

/-- Method `OrderManager.submit_oco_pair` (lines 197-216): stamp both orders with a
fresh shared group id, then submit both. -/
def submit_oco_pair (st : OrderManager) (order1 order2 : Order) :
    OrderManager × String × String :=
  let g := freshOcoId st.nextId
  let st0 := { st with nextId := st.nextId + 1 }
  let (st1, id1) := submit_order st0 { order1 with oco_id := some g }
  let (st2, id2) := submit_order st1 { order2 with oco_id := some g }
  (st2, id1, id2)

/-- Method `OrderManager.submit_bracket_order` (lines 218-246): submit only the entry
order; record the two children (by id) keyed by the entry id, and store their
objects in the order dict — *not* in the pending list. -/
def submit_bracket_order (st : OrderManager) (entry_order tp_order sl_order : Order) :
    OrderManager × String × String × String :=
  let (st1, entry_id) := submit_order st entry_order
  let st2 := { st1 with
    bracket_children := updList st1.bracket_children entry_id (tp_order.order_id, sl_order.order_id),
    orders := updList (updList st1.orders tp_order.order_id tp_order) sl_order.order_id sl_order }
  (st2, entry_id, tp_order.order_id, sl_order.order_id)

/-- Method `OrderManager.get_position` (lines 248-252): get or create. -/
def get_position (st : OrderManager) (symbol : String) : OrderManager × Position :=
  match getL st.positions symbol with
  | some p => (st, p)
  | none =>
      let p : Position := { symbol := symbol }
      ({ st with positions := updList st.positions symbol p }, p)

/-- Method `OrderManager.close_all_positions` (lines 261-275): one market order per
non-flat position, on the opposite side, with `size = -position.size` (the
source's `current_prices` argument is unused by its body).  The generated
uuid ids are modelled as `"close-" ++ symbol` (unique because positions are
keyed by symbol); the source never reads them on this path. -/
def close_all_positions (st : OrderManager) (timestamp : Timestamp) : List Order :=
  (st.positions.filter (fun sp => ¬ sp.2.size = 0)).map
    (fun sp =>
      { symbol := sp.1
        side := if (0 : ℤ) < sp.2.size then OrderSide.sell else OrderSide.buy
        size := -sp.2.size
        order_type := OrderType.market
        order_id := "close-" ++ sp.1
        timestamp := some timestamp })

/-- Stamping one bracket child with the fresh OCO-group id
(`tp_order.oco_id = oco_id` at lines 322-323; the child object lives in the
order store). -/
def stampOco (g : String) (os : List (String × Order)) (cid : String) :
    List (String × Order) :=
  match getL os cid with
  | some co => updList os cid { co with oco_id := some g }
  | none => os

/-- The body of `process_pending`'s fill branch (`core/orders.py` lines
311-337) for one filled order: record fill price/time and set status
`FILLED`; if the order is a bracket parent, stamp both children with a fresh
shared OCO-group id, register the group, remove the bracket entry and hand
back the children's ids for appending to the worklist (the source appends
the child objects to `self._pending_orders` *while that list is being
iterated*, so they are examined later in the same pass); finally cancel the
other active members of the order's OCO group, reading `order.oco_id` from
the live object (it may have been updated if this very order is a bracket
child of itself, hence the re-lookup). -/
def fillStep (ts : Timestamp) (oid : String) (o : Order) (fp : ℚ) (st : OrderManager) :
    OrderManager × List String :=
  let filled : Order :=
    { o with fill_price := some fp, fill_time := some ts, status := OrderStatus.filled }
  let st1 := { st with orders := updList st.orders oid filled }
  let act : OrderManager × List String :=
    match getL st1.bracket_children oid with
    | some ch =>
        let g := freshOcoId st1.nextId
        let os2 := stampOco g (stampOco g st1.orders ch.1) ch.2
        ({ st1 with orders := os2,
                    oco_groups := updList st1.oco_groups g [ch.1, ch.2],
                    bracket_children := removeL st1.bracket_children oid,
                    nextId := st1.nextId + 1 },
         [ch.1, ch.2])
    | none => (st1, [])
  let st3 :=
    match (getL act.1.orders oid).bind Order.oco_id with
    | some g =>
        { act.1 with orders :=
            cancelSiblingsOrders act.1.orders ((getL act.1.oco_groups g).getD []) oid }
    | none => act.1
  (st3, act.2)

/-- The `for order in self._pending_orders` loop of `process_pending` (lines
285-339), as a worklist recursion.  Python's list iterator walks the live
list by index, so child ids appended by `fillStep` are visited after the
remaining original entries — `queue := rest ++ appended`.  Unmatched orders
(no bar for the symbol, or no fill rule hit) are collected into `still`;
note that the loop never consults an order's *status*, exactly like the
source.  Termination: every bracket activation deletes one
`bracket_children` entry while appending two ids. -/
def ppAux (ts : Timestamp) (bars : List (String × Bar)) (queue : List String)
    (st : OrderManager) (fills : List (String × ℚ)) (still : List String) :
    OrderManager × List (String × ℚ) × List String :=
  match queue with
  | [] => (st, fills, still)
  | oid :: rest =>
      match getL st.orders oid with
      | none => ppAux ts bars rest st fills still
      | some o =>
          match getL bars o.symbol with
          | none => ppAux ts bars rest st fills (still ++ [oid])
          | some bar =>
              match tryFill o bar with
              | none => ppAux ts bars rest st fills (still ++ [oid])
              | some fp =>
                  let r := fillStep ts oid o fp st
                  ppAux ts bars (rest ++ r.2) r.1 (fills ++ [(oid, fp)]) still
termination_by 3 * st.bracket_children.length + queue.length
decreasing_by
  all_goals try (simp only [List.length_cons]; omega)
  have hlen : ∀ (l : List (String × String × String)) (k : String),
      (removeL l k).length ≤ l.length := by
    intro l k
    induction l with
    | nil => simp [removeL]
    | cons hd tl ih =>
        obtain ⟨k', v⟩ := hd
        by_cases hk : k' = k <;> simp [removeL, hk] <;> omega
  have hlt : ∀ (l : List (String × String × String)) (k : String),
      (getL l k).isSome → (removeL l k).length < l.length := by
    intro l k
    induction l with
    | nil => intro h; simp [getL] at h
    | cons hd tl ih =>
        obtain ⟨k', v⟩ := hd
        intro h
        by_cases hk : k' = k
        · have := hlen tl k
          simp [removeL, hk]
          omega
        · simp [getL, hk] at h
          have := ih h
          simp [removeL, hk]
          omega
  have hfs : 3 * (fillStep ts oid o fp st).1.bracket_children.length
      + (fillStep ts oid o fp st).2.length < 3 * st.bracket_children.length + 1 := by
    simp only [fillStep]
    cases hbr : getL st.bracket_children oid with
    | none =>
        simp only [hbr]
        cases hoco : (getL (updList st.orders oid
            { o with fill_price := some fp, fill_time := some ts,
                     status := OrderStatus.filled }) oid).bind Order.oco_id with
        | none => simp [hoco]
        | some g => simp [hoco]
    | some ch =>
        have h1 := hlt st.bracket_children oid (by simp [hbr])
        simp only [hbr]
        split <;> simp <;> omega
  simp only [List.length_append, List.length_cons]
  omega

/-- Method `OrderManager.process_pending` (lines 277-342): run the worklist over the
captured pending list, then replace `self._pending_orders` with the orders
that did not fill.  Returns the new manager state and the list of
`(order id, fill price)` pairs (the source returns the order objects
themselves; they live in `orders`). -/
def process_pending (st : OrderManager) (ts : Timestamp) (bars : List (String × Bar)) :
    OrderManager × List (String × ℚ) :=
  let r := ppAux ts bars st.pending st [] []
  ({ r.1 with pending := r.2.2 }, r.2.1)

/-! Section: Risk engine (`core/risk.py`) -/

/-- Enum `DrawdownType` from `prop_firms/configs.py` (lines 9-13). -/
inductive DrawdownType where
  | static
  | eod_trailing
  | intraday_trailing
deriving DecidableEq

/-- The fields of `PropFirmConfig` (`prop_firms/configs.py` lines 16-39) read
by the risk engine.  `position_close_time` is stored as minutes since
midnight (the source stores `"HH:MM"` and parses it with `_parse_time`,
pure string-to-time conversion). -/
structure PropFirmConfig where
  initial_balance : ℚ
  max_daily_loss : ℚ
  max_loss : ℚ
  drawdown_type : DrawdownType
  drawdown_start_value : ℚ
  position_close_time : ℕ
  max_contracts : Option ℕ := none
deriving DecidableEq

/-- The mutable state of `RiskManager` (`core/risk.py` lines 14-22; the
`_daily_pnl` dict is initialized but never read or written afterwards and is
omitted). -/
structure RiskState where
  current_day : Option ℕ := none
  day_start_equity : ℚ
  equity_high : ℚ
  intraday_high : ℚ
  daily_loss_limit_hit : Bool := false
  max_loss_hit : Bool := false
deriving DecidableEq

/-- Constructor `RiskManager.__init__` (lines 14-22). -/
def RiskState.init (cfg : PropFirmConfig) : RiskState :=
  { day_start_equity := cfg.initial_balance
    equity_high := cfg.initial_balance
    intraday_high := cfg.initial_balance }

/-- The result dict of `RiskManager.update`.  The source's `violation`
strings carry interpolated dollar amounts; only their presence and identity
of the branch matter here, so fixed descriptors are used. -/
structure RiskStatus where
  can_trade : Bool
  close_positions : Bool
  violation : Option String
deriving DecidableEq

/-- The day-rollover block of `RiskManager.update` (lines 33-39): on a
calendar-date change from the last seen day, reset day-start equity and the
intraday high to the current equity and clear the daily-loss flag; otherwise
leave the state untouched. -/
def dayRollover (rs : RiskState) (ts : Timestamp) (equity : ℚ) : RiskState :=
  if rs.current_day ≠ some ts.day then
    { rs with current_day := some ts.day
              day_start_equity := equity
              intraday_high := equity
              daily_loss_limit_hit := false }
  else rs

/-- Method `RiskManager._calculate_drawdown` (lines 84-98). -/
def calculate_drawdown (cfg : PropFirmConfig) (rs : RiskState) (equity : ℚ) : ℚ :=
  match cfg.drawdown_type with
  | .static => cfg.drawdown_start_value - equity
  | .eod_trailing => rs.equity_high - equity
  | .intraday_trailing => rs.intraday_high - equity

/-- Method `RiskManager.update` (lines 24-82): day rollover, high-water-mark
updates, then the three checks in source order — session close, daily loss
limit, max loss / drawdown — each of which returns
`{can_trade: false, close_positions: true}`; otherwise
`{can_trade: true, close_positions: false}`. -/
def riskUpdate (cfg : PropFirmConfig) (rs : RiskState) (ts : Timestamp) (equity : ℚ) :
    RiskState × RiskStatus :=
  let rs1 := dayRollover rs ts equity
  let rs2 := if equity > rs1.intraday_high then { rs1 with intraday_high := equity } else rs1
  let rs3 := if equity > rs2.equity_high then { rs2 with equity_high := equity } else rs2
  if ts.minute ≥ cfg.position_close_time then
    (rs3, { can_trade := false, close_positions := true, violation := some "close time reached" })
  else if equity - rs3.day_start_equity ≤ -cfg.max_daily_loss then
    ({ rs3 with daily_loss_limit_hit := true },
     { can_trade := false, close_positions := true, violation := some "daily loss limit hit" })
  else if calculate_drawdown cfg rs3 equity ≥ cfg.max_loss then
    ({ rs3 with max_loss_hit := true },
     { can_trade := false, close_positions := true, violation := some "max loss hit" })
  else
    (rs3, { can_trade := true, close_positions := false, violation := none })

/-! Section: Backtest engine (`core/backtest.py`) -/

/-- The fields of `ContractSpec` (`contracts/micros.py`) used for equity
valuation. -/
structure ContractSpec where
  tick_size : ℚ
  tick_value : ℚ
deriving DecidableEq

/-- The mutable state of `BacktestEngine` threaded through the loop.  The
`BacktestResult` accumulators, the trade log and the journal (lines 189-192,
254-298 of `core/backtest.py`) are output-only bookkeeping and are omitted;
no claim concerns them. -/
structure EngineState where
  broker : OrderManager
  risk : RiskState
  cash : ℚ
  equity : ℚ
deriving DecidableEq

/-- Method `BacktestEngine._process_fill` (lines 238-252, the parts that feed back
into the simulation): signed size from side, position ledger update,
commission deducted from cash.  Trade-record, journal and strategy
notifications are omitted output bookkeeping. -/
def processFill (commission_per_contract : ℚ) (es : EngineState)
    (oid : String) (fill_price : ℚ) (ts : Timestamp) : EngineState :=
  match getL es.broker.orders oid with
  | none => es
  | some o =>
      let size : ℤ := if o.is_buy then o.size else -o.size
      let gp := get_position es.broker o.symbol
      let pos' := gp.2.update fill_price size ts
      let br2 := { gp.1 with positions := updList gp.1.positions o.symbol pos' }
      let commission : ℚ := (size.natAbs : ℚ) * commission_per_contract
      { es with broker := br2, cash := es.cash - commission }

/-- Method `BacktestEngine._update_equity` (lines 316-331): equity = cash plus the
unrealized P&L of every non-flat position that has a bar this step.  The
source raises `ValueError` (via `get_contract`) for a non-flat position in an
unknown symbol; no claim exercises that path and it is modelled as a skip. -/
def updateEquity (contracts : List (String × ContractSpec)) (es : EngineState)
    (bars : List (String × Bar)) : EngineState :=
  let positions_value :=
    es.broker.positions.foldl
      (fun acc sp =>
        if sp.2.size = 0 then acc
        else
          match getL bars sp.1 with
          | none => acc
          | some bar =>
              match getL contracts sp.1 with
              | none => acc
              | some c => acc + sp.2.unrealized_pnl bar.close c.tick_value c.tick_size)
      0
  { es with equity := es.cash + positions_value }

/-- The `AttributeError` raised by line 213 of `core/backtest.py`:
`order.status = Order.OrderStatus.PENDING` — the `Order` dataclass has no
attribute `OrderStatus` (the enum lives at module level and is not imported
into `backtest.py`), so the first iteration of the loop over a non-empty
`close_orders` list raises. -/
def attrErrorMsg : String := "AttributeError: type object Order has no attribute OrderStatus"

/-- One iteration of the `for timestamp, bar_data in self.data` loop of
`BacktestEngine.run` (`core/backtest.py` lines 203-231), translated
statement for statement:
1. risk update;
2. if `close_positions`: synthesize close orders; the loop that would mark
   them `PENDING` and submit them raises `AttributeError` on its first
   iteration (line 213), so a non-empty close-order list aborts the run;
3. if not `can_trade`: `continue` — skip matching, strategy and equity
   update for this bar;
4. otherwise: `process_pending`, `_process_fill` per fill, the strategy
   callback (external code, modelled as the `strat` parameter), and
   `_update_equity`.
Returns the new engine state and this step's fills, or the uncaught Python
exception. -/
def runStep (cfg : PropFirmConfig) (contracts : List (String × ContractSpec))
    (commission_per_contract : ℚ) (strat : EngineState → EngineState)
    (es : EngineState) (ts : Timestamp) (bars : List (String × Bar)) :
    Except String (EngineState × List (String × ℚ)) :=
  let ru := riskUpdate cfg es.risk ts es.equity
  let es1 := { es with risk := ru.1 }
  if ru.2.close_positions && !(close_all_positions es1.broker ts).isEmpty then
    Except.error attrErrorMsg
  else if !ru.2.can_trade then
    Except.ok (es1, [])
  else
    let pp := process_pending es1.broker ts bars
    let es2 := { es1 with broker := pp.1 }
    let es3 := pp.2.foldl (fun e f => processFill commission_per_contract e f.1 f.2 ts) es2
    let es4 := strat es3
    let es5 := updateEquity contracts es4 bars
    Except.ok (es5, pp.2)

/-- The whole `BacktestEngine.run` loop (lines 203-231) over a list of
synchronized steps; an uncaught exception aborts the run as in Python. -/
def runLoop (cfg : PropFirmConfig) (contracts : List (String × ContractSpec))
    (commission_per_contract : ℚ) (strat : EngineState → EngineState) :
    EngineState → List (Timestamp × List (String × Bar)) → Except String EngineState
  | es, [] => Except.ok es
  | es, (ts, bars) :: rest =>
      match runStep cfg contracts commission_per_contract strat es ts bars with
      | Except.error e => Except.error e
      | Except.ok r => runLoop cfg contracts commission_per_contract strat r.1 rest

/-! Section: Concrete scenario inputs

Concrete orders, bars and states used to evaluate the embedded code at
specific inputs (the spec's own examples and the failing inputs below). -/

/-- The spec's example bar `{open:100, high:101, low:98}`. -/
def exampleBar : Bar := { open_ := 100, high := 101, low := 98, close := 100 }

/-- The spec's example order: limit BUY at 99. -/
def limitBuy99 : Order :=
  { symbol := "MES", side := OrderSide.buy, size := 1,
    order_type := OrderType.limit, price := some 99, order_id := "A" }

/-- A limit SELL at 101 (used as the second OCO leg). -/
def limitSell101 : Order :=
  { symbol := "MES", side := OrderSide.sell, size := 1,
    order_type := OrderType.limit, price := some 101, order_id := "B" }

/-- OCO pair submitted to a fresh manager. -/
def ocoMgr : OrderManager := (submit_oco_pair OrderManager.empty limitBuy99 limitSell101).1

/-- One matching pass over the OCO pair against `exampleBar` (both legs'
trigger prices are inside the bar's range). -/
def ocoRes : OrderManager × List (String × ℚ) :=
  process_pending ocoMgr ⟨0, 0⟩ [("MES", exampleBar)]

/-- Manager after submitting the limit buy and then cancelling it. -/
def cancelMgr : OrderManager :=
  (cancel_order (submit_order OrderManager.empty limitBuy99).1 "A" true).1

/-- A matching pass run after the cancellation. -/
def cancelRes : OrderManager × List (String × ℚ) :=
  process_pending cancelMgr ⟨0, 0⟩ [("MES", exampleBar)]

/-- Bracket entry: market BUY. -/
def entryE : Order :=
  { symbol := "MES", side := OrderSide.buy, size := 1,
    order_type := OrderType.market, order_id := "E" }

/-- Bracket take-profit child: limit SELL at 101. -/
def tpT : Order :=
  { symbol := "MES", side := OrderSide.sell, size := 1,
    order_type := OrderType.limit, price := some 101, order_id := "T" }

/-- Bracket stop-loss child: stop SELL at 97. -/
def slS : Order :=
  { symbol := "MES", side := OrderSide.sell, size := 1,
    order_type := OrderType.stop, stop_price := some 97, order_id := "S" }

/-- Bracket submitted to a fresh manager. -/
def brMgr : OrderManager := (submit_bracket_order OrderManager.empty entryE tpT slS).1

/-- A single matching pass over the bracket against `exampleBar`. -/
def brRes : OrderManager × List (String × ℚ) :=
  process_pending brMgr ⟨0, 0⟩ [("MES", exampleBar)]

/-- A static-drawdown account configuration (the Topstep-style numbers of
`prop_firms/configs.py`, close time 16:00 = minute 960). -/
def cfgT : PropFirmConfig :=
  { initial_balance := 50000, max_daily_loss := 1000, max_loss := 2000,
    drawdown_type := DrawdownType.static, drawdown_start_value := 50000,
    position_close_time := 960 }

/-- A session-close timestamp (16:00). -/
def tClose : Timestamp := ⟨0, 960⟩

/-- Engine state with one pending limit buy and no open positions. -/
def esPendingOnly : EngineState :=
  { broker := (submit_order OrderManager.empty limitBuy99).1,
    risk := RiskState.init cfgT, cash := 50000, equity := 50000 }

/-- Engine state with an open long position of 2 MES at 100 and no orders. -/
def esWithPos : EngineState :=
  { broker := { OrderManager.empty with
      positions := [("MES", { symbol := "MES", size := 2, avg_entry_price := 100 })] },
    risk := RiskState.init cfgT, cash := 50000, equity := 50000 }

/-- An order whose `order_type` holds a value outside the `OrderType` enum
(possible in Python because the attribute is dynamically typed). -/
def bogusOrder : Order :=
  { symbol := "MES", side := OrderSide.buy, size := 1,
    order_type := OrderType.other "bogus", order_id := "X" }

/-- The bogus-kind order submitted to a fresh manager. -/
def bogusMgr : OrderManager := (submit_order OrderManager.empty bogusOrder).1

/-- A `STOP_LIMIT` order. -/
def stopLimitOrder : Order :=
  { symbol := "MES", side := OrderSide.buy, size := 1,
    order_type := OrderType.stop_limit, price := some 99, stop_price := some 100,
    order_id := "L" }

/-- The stop-limit order submitted to a fresh manager. -/
def stopLimitMgr : OrderManager := (submit_order OrderManager.empty stopLimitOrder).1

/-! Section: Helper lemmas -/

theorem getL_updList_self {V : Type} (m : List (String × V)) (k : String) (v : V) :
    getL (updList m k v) k = some v := by
  induction m with
  | nil => simp [updList, getL]
  | cons hd tl ih =>
      obtain ⟨k', v'⟩ := hd
      by_cases hk : k' = k <;> simp [updList, getL, hk, ih]

theorem getL_updList_ne {V : Type} (m : List (String × V)) (k k' : String) (v : V)
    (h : k' ≠ k) : getL (updList m k v) k' = getL m k' := by
  have hkk : ¬ k = k' := fun hk => h hk.symm
  induction m with
  | nil => simp [updList, getL, hkk]
  | cons hd tl ih =>
      obtain ⟨k₀, v₀⟩ := hd
      by_cases hk : k₀ = k
      · subst hk
        simp [updList, getL, hkk]
      · simp [updList, getL, hk, ih]

/-- Function `tryFill` has no branch for `STOP_LIMIT`: such orders never match. -/
theorem tryFill_stop_limit (o : Order) (bar : Bar)
    (h : o.order_type = OrderType.stop_limit) : tryFill o bar = none := by
  simp [tryFill, h]

/-! Section: C6: the position ledger -/

/-- Claim C6: For every `Position.update(fillPrice, signedFillSize, timestamp)`:
the resulting size is the prior size plus the signed fill size, and exactly
one history record `{timestamp, fillPrice, signedFillSize, resultingSize}` is
appended; on a full close or reversal (opposite direction,
`|fillSize| ≥ |oldSize|`) the average entry price becomes the fill price if a
remainder reverses direction and zero otherwise; on a partial close
(opposite direction, `|fillSize| < |oldSize|`) the average entry price is
unchanged. -/
theorem position_update_spec (p : Position) (fp : ℚ) (fs : ℤ) (ts : Timestamp) :
    (p.update fp fs ts).size = p.size + fs ∧
    (p.update fp fs ts).trades = p.trades ++
      [{ timestamp := ts, price := fp, size := fs,
         position_after := (p.update fp fs ts).size }] ∧
    (p.size ≠ 0 → p.size * fs ≤ 0 → p.size.natAbs ≤ fs.natAbs →
      (p.update fp fs ts).avg_entry_price = if p.size + fs ≠ 0 then fp else 0) ∧
    (p.size ≠ 0 → p.size * fs ≤ 0 → fs.natAbs < p.size.natAbs →
      (p.update fp fs ts).avg_entry_price = p.avg_entry_price) := by
  refine ⟨?_, ?_, ?_, ?_⟩
  · simp only [Position.update]
    split_ifs with h1 h2 h3 <;> simp <;> omega
  · simp only [Position.update]
    split_ifs with h1 h2 h3 <;> simp
  · intro h0 hopp habs
    have h2 : ¬ 0 < p.size * fs := not_lt.mpr hopp
    have h3 : ¬ fs.natAbs < p.size.natAbs := by omega
    simp only [Position.update, if_neg h0, if_neg h2, if_neg h3]
    have hc : fs + p.size = p.size + fs := by ring
    simp [hc]
  · intro h0 hopp habs
    have h2 : ¬ 0 < p.size * fs := not_lt.mpr hopp
    simp only [Position.update, if_neg h0, if_neg h2, if_pos habs]

/-- Witness for C6 at a concrete full close: a long position of 2 contracts
at average price 100, closed by a fill of −2 at 90: resulting size 0,
average entry price reset to 0, one history record appended. -/
theorem position_update_spec_witness :
    (({ symbol := "MES", size := 2, avg_entry_price := 100 } : Position).update 90 (-2) ⟨0, 0⟩).size = 0 ∧
    (({ symbol := "MES", size := 2, avg_entry_price := 100 } : Position).update 90 (-2) ⟨0, 0⟩).avg_entry_price = 0 ∧
    (({ symbol := "MES", size := 2, avg_entry_price := 100 } : Position).update 90 (-2) ⟨0, 0⟩).trades =
      [{ timestamp := ⟨0, 0⟩, price := 90, size := -2, position_after := 0 }] := by
  have h := position_update_spec { symbol := "MES", size := 2, avg_entry_price := 100 } 90 (-2) ⟨0, 0⟩
  obtain ⟨hsize, htr, hfull, _⟩ := h
  have havg := hfull (by norm_num) (by norm_num) (by norm_num)
  norm_num at hsize havg
  refine ⟨hsize, havg, ?_⟩
  rw [htr, hsize]
  norm_num

/-! Section: C7: limit-order matching -/

/-- Claim C7: A pending limit buy with limit price `p` fills on a bar iff the
bar's low is `≤ p`; its fill price is the bar's open when the open is `≤ p`
and `p` otherwise, never exceeding `p`.  Limit sell mirrors this with the
bar high.  In particular the spec's example, a limit BUY at 99 against
`bar{open:100, high:101, low:98}`, fills at exactly 99. -/
theorem limit_fill_rule (o : Order) (bar : Bar) (p : ℚ)
    (hty : o.order_type = OrderType.limit) :
    (o.side = OrderSide.buy → o.price = some p →
      ((tryFill o bar).isSome ↔ bar.low ≤ p) ∧
      tryFill o bar = (if bar.low ≤ p then
          some (if bar.open_ ≤ p then bar.open_ else p) else none) ∧
      (∀ fp, tryFill o bar = some fp → fp ≤ p)) ∧
    (o.side = OrderSide.sell → o.price = some p →
      ((tryFill o bar).isSome ↔ p ≤ bar.high) ∧
      tryFill o bar = (if p ≤ bar.high then
          some (if p ≤ bar.open_ then bar.open_ else p) else none) ∧
      (∀ fp, tryFill o bar = some fp → p ≤ fp)) ∧
    tryFill limitBuy99 exampleBar = some 99 := by
  refine ⟨?_, ?_, ?_⟩
  · intro hside hp
    have hb : o.is_buy = true := by simp [Order.is_buy, hside]
    by_cases hlow : bar.low ≤ p
    · by_cases hop : bar.open_ ≤ p
      · have hv : tryFill o bar = some bar.open_ := by
          simp [tryFill, hty, hp, hb, hlow, hop, min_eq_right hop]
        refine ⟨by simp [hv, hlow], by simp [hv, hlow, hop], ?_⟩
        intro fp hf
        rw [hv] at hf
        have := Option.some.inj hf
        rw [← this]
        exact hop
      · have hv : tryFill o bar = some p := by
          simp [tryFill, hty, hp, hb, hlow, hop]
        refine ⟨by simp [hv, hlow], by simp [hv, hlow, hop], ?_⟩
        intro fp hf
        rw [hv] at hf
        have := Option.some.inj hf
        rw [← this]
    · have hv : tryFill o bar = none := by
        simp [tryFill, hty, hp, hb, hlow, Order.is_sell, hside]
      refine ⟨by simp [hv, hlow], by simp [hv, hlow], ?_⟩
      intro fp hf
      rw [hv] at hf
      exact absurd hf (by simp)
  · intro hside hp
    have hb : o.is_buy = false := by simp [Order.is_buy, hside]
    have hs : o.is_sell = true := by simp [Order.is_sell, hside]
    by_cases hhigh : p ≤ bar.high
    · by_cases hop : p ≤ bar.open_
      · have hv : tryFill o bar = some bar.open_ := by
          simp [tryFill, hty, hp, hb, hs, ge_iff_le, hhigh, hop, max_eq_right hop]
        refine ⟨by simp [hv, hhigh], by simp [hv, hhigh, hop], ?_⟩
        intro fp hf
        rw [hv] at hf
        have := Option.some.inj hf
        rw [← this]
        exact hop
      · have hop' : ¬ bar.open_ ≥ p := hop
        have hv : tryFill o bar = some p := by
          simp [tryFill, hty, hp, hb, hs, ge_iff_le, hhigh, not_le.mp hop]
        refine ⟨by simp [hv, hhigh], by simp [hv, hhigh, hop], ?_⟩
        intro fp hf
        rw [hv] at hf
        have := Option.some.inj hf
        rw [← this]
    · have hv : tryFill o bar = none := by
        simp [tryFill, hty, hp, hb, hs, ge_iff_le, hhigh]
      refine ⟨by simp [hv, hhigh], by simp [hv, hhigh], ?_⟩
      intro fp hf
      rw [hv] at hf
      exact absurd hf (by simp)
  · norm_num [tryFill, limitBuy99, exampleBar, Order.is_buy]

/-- Witness for C7: the spec's concrete limit-BUY example, and a concrete
limit SELL at 101 against the same bar filling at 101. -/
theorem limit_fill_rule_witness :
    tryFill limitBuy99 exampleBar = some 99 ∧
    tryFill limitSell101 exampleBar = some 101 := by
  constructor
  · exact (limit_fill_rule limitBuy99 exampleBar 99 rfl).2.2
  · have h := ((limit_fill_rule limitSell101 exampleBar 101 rfl).2.1 rfl rfl).2.1
    rw [h]
    norm_num [exampleBar]

/-! Section: C8: risk-engine day rollover -/

/-- Claim C8: On a `RiskManager.update` call whose calendar date differs from
the last seen one, the rollover resets day-start equity and the intraday
high to the current equity and clears the daily-loss flag (the daily-loss
flag stays clear through the rest of the call whenever the configured daily
loss limit is positive, since day P&L is then zero), while the rollover
logic leaves the max-loss flag and the all-time equity high untouched and
the call never clears a set max-loss flag.  On a same-date call the
rollover logic is the identity: day-start equity and the current-day
identifier are unchanged by the call and a set daily-loss flag is not
cleared. -/
theorem risk_rollover_spec (cfg : PropFirmConfig) (rs : RiskState) (ts : Timestamp)
    (equity : ℚ) :
    (rs.current_day ≠ some ts.day →
      (dayRollover rs ts equity).max_loss_hit = rs.max_loss_hit ∧
      (dayRollover rs ts equity).equity_high = rs.equity_high ∧
      (riskUpdate cfg rs ts equity).1.day_start_equity = equity ∧
      (riskUpdate cfg rs ts equity).1.intraday_high = equity ∧
      (0 < cfg.max_daily_loss → (riskUpdate cfg rs ts equity).1.daily_loss_limit_hit = false) ∧
      (rs.max_loss_hit = true → (riskUpdate cfg rs ts equity).1.max_loss_hit = true)) ∧
    (rs.current_day = some ts.day →
      dayRollover rs ts equity = rs ∧
      (riskUpdate cfg rs ts equity).1.day_start_equity = rs.day_start_equity ∧
      (riskUpdate cfg rs ts equity).1.current_day = rs.current_day ∧
      (rs.daily_loss_limit_hit = true → (riskUpdate cfg rs ts equity).1.daily_loss_limit_hit = true)) := by
  constructor
  · intro hneq
    have hroll : dayRollover rs ts equity =
        { rs with current_day := some ts.day, day_start_equity := equity,
                  intraday_high := equity, daily_loss_limit_hit := false } := by
      simp [dayRollover, hneq]
    refine ⟨by rw [hroll], by rw [hroll], ?_, ?_, ?_, ?_⟩
    · simp only [riskUpdate, hroll]
      split_ifs <;> simp
    · simp only [riskUpdate, hroll]
      split_ifs <;> simp_all
    · intro hmdl
      simp only [riskUpdate, hroll]
      split_ifs with hA hB hC <;> simp_all <;> linarith
    · intro hmax
      simp only [riskUpdate, hroll]
      split_ifs <;> simp [hmax]
  · intro heq
    have hroll : dayRollover rs ts equity = rs := by
      simp [dayRollover, heq]
    refine ⟨hroll, ?_, ?_, ?_⟩
    · simp only [riskUpdate, hroll]
      split_ifs <;> simp
    · simp only [riskUpdate, hroll]
      split_ifs <;> simp
    · intro h
      simp only [riskUpdate, hroll]
      split_ifs <;> simp [h]

/-- Witness for C8: a fresh account (no day seen yet) updated at day 1,
09:00 with equity 49500 — a date change — with the positive daily-loss
limit of `cfgT`; and a same-date second call at day 1. -/
theorem risk_rollover_spec_witness :
    ((riskUpdate cfgT (RiskState.init cfgT) ⟨1, 540⟩ 49500).1.day_start_equity = 49500 ∧
      (riskUpdate cfgT (RiskState.init cfgT) ⟨1, 540⟩ 49500).1.intraday_high = 49500 ∧
      (riskUpdate cfgT (RiskState.init cfgT) ⟨1, 540⟩ 49500).1.daily_loss_limit_hit = false) ∧
    (dayRollover { RiskState.init cfgT with current_day := some 1 } ⟨1, 600⟩ 49000 =
      { RiskState.init cfgT with current_day := some 1 }) := by
  have h1 := (risk_rollover_spec cfgT (RiskState.init cfgT) ⟨1, 540⟩ 49500).1
    (by simp [RiskState.init])
  have h2 := (risk_rollover_spec cfgT { RiskState.init cfgT with current_day := some 1 }
    ⟨1, 600⟩ 49000).2 (by simp)
  exact ⟨⟨h1.2.2.1, h1.2.2.2.1, h1.2.2.2.2.1 (by norm_num [cfgT])⟩, h2.1⟩

/-! Section: C9: submission performs no kind validation -/

/-- Counterexample to claim C9: submitting an order whose kind is outside the
recognized variants does *not* reject it — its stored status is still
`pending` (never `rejected`) and it *is* added to the pending set. -/
theorem submit_unrecognized_not_rejected :
    (getL bogusMgr.orders "X").map Order.status = some OrderStatus.pending ∧
    bogusMgr.pending = ["X"] := by
  simp [bogusMgr, bogusOrder, submit_order, OrderManager.empty, getL, updList]

/-- Claim C9 (amended): `submit_order` performs no validation whatsoever: for
*every* order — in particular one whose kind is not a recognized variant —
submission returns the order's id, stores the order unchanged (its status is
not set to `rejected` or anything else), and appends it to the pending set;
an order with an unrecognized kind then simply never matches (no fill rule
applies to it). -/
theorem submit_no_rejection (st : OrderManager) (o : Order) :
    (submit_order st o).2 = o.order_id ∧
    getL (submit_order st o).1.orders o.order_id = some o ∧
    (submit_order st o).1.pending = st.pending ++ [o.order_id] ∧
    (∀ tag bar, o.order_type = OrderType.other tag → tryFill o bar = none) := by
  refine ⟨rfl, ?_, ?_, ?_⟩
  · simp only [submit_order]
    cases ho : o.oco_id <;> simp [ho, getL_updList_self]
  · simp only [submit_order]
    cases ho : o.oco_id <;> simp [ho]
  · intro tag bar h
    simp [tryFill, h]

/-- Witness for C9 (amended) at the concrete bogus-kind order. -/
theorem submit_no_rejection_witness :
    getL bogusMgr.orders "X" = some bogusOrder ∧
    bogusMgr.pending = ["X"] ∧
    tryFill bogusOrder exampleBar = none := by
  have h := submit_no_rejection OrderManager.empty bogusOrder
  refine ⟨h.2.1, ?_, h.2.2.2 "bogus" exampleBar rfl⟩
  have := h.2.2.1
  simpa [OrderManager.empty, bogusOrder] using this

/-! Section: C2: the OCO invariant is violated by the code -/

/-- Claim C2 fails on the code: in a single `process_pending` pass over an OCO
pair (limit BUY 99 / limit SELL 101) against `bar{open:100, high:101,
low:98}`, the buy leg fills at 99 and — although the sell leg is set
`cancelled` at that moment — the pass goes on to match the sell leg anyway
(the loop never checks order status), so *both* members of the group end
`filled`. -/
theorem oco_double_fill :
    ocoRes.2 = [("A", 99), ("B", 101)] ∧
    (getL ocoRes.1.orders "A").map Order.status = some OrderStatus.filled ∧
    (getL ocoRes.1.orders "B").map Order.status = some OrderStatus.filled ∧
    (getL ocoRes.1.orders "A").bind Order.oco_id = (getL ocoRes.1.orders "B").bind Order.oco_id ∧
    ((getL ocoRes.1.orders "A").bind Order.oco_id).isSome := by
  simp [ocoRes, ocoMgr, limitBuy99, limitSell101, exampleBar, process_pending, ppAux,
    submit_oco_pair, submit_order, OrderManager.empty, fillStep, tryFill, getL, updList,
    freshOcoId, cancelSiblingsOrders, Order.is_buy, Order.is_sell, Order.is_active]
  norm_num [ppAux, fillStep, tryFill, getL, updList, cancelSiblingsOrders,
    Order.is_buy, Order.is_sell, Order.is_active]

/-! Section: C4: a cancelled order is matched and filled later -/

/-- Claim C4 fails on the code: `cancel_order` marks the order cancelled (and
returns `true`) but leaves it in `_pending_orders`, and `process_pending`
never checks status — so the next matching pass fills the cancelled order,
overwriting its terminal `cancelled` status with `filled`. -/
theorem cancelled_order_fills :
    (cancel_order (submit_order OrderManager.empty limitBuy99).1 "A" true).2 = true ∧
    (getL cancelMgr.orders "A").map Order.status = some OrderStatus.cancelled ∧
    cancelRes.2 = [("A", 99)] ∧
    (getL cancelRes.1.orders "A").map Order.status = some OrderStatus.filled := by
  simp [cancelRes, cancelMgr, limitBuy99, exampleBar, process_pending, ppAux,
    cancel_order, submit_order, OrderManager.empty, fillStep, tryFill, getL, updList,
    cancelSiblingsOrders, Order.is_buy, Order.is_sell, Order.is_active]
  norm_num [ppAux, fillStep, tryFill, getL, updList, cancelSiblingsOrders,
    Order.is_buy, Order.is_sell, Order.is_active]

/-! Section: C5: bracket children are eligible in the same pass -/

/-- Counterexample to claim C5: a bracket (market BUY entry, limit-SELL-101
take profit, stop-SELL-97 stop loss) processed in a *single*
`process_pending` pass against `bar{open:100, high:101, low:98}` — the entry
fills at 100 and the take-profit child fills at 101 *within the same pass*
(Python's list iterator picks up the children appended during iteration), so
it is false that neither child can be matched during the pass in which the
parent fills. -/
theorem bracket_child_same_pass_fill :
    brRes.2 = [("E", 100), ("T", 101)] ∧
    (getL brRes.1.orders "T").map Order.status = some OrderStatus.filled := by
  simp [brRes, brMgr, entryE, tpT, slS, exampleBar, process_pending, ppAux,
    submit_bracket_order, submit_order, OrderManager.empty, fillStep, tryFill, getL,
    updList, freshOcoId, cancelSiblingsOrders, Order.is_buy, Order.is_sell, Order.is_active]
  norm_num [ppAux, fillStep, tryFill, getL, updList, cancelSiblingsOrders,
    Order.is_buy, Order.is_sell, Order.is_active]

/-- Claim C5 (amended): Before the entry fills, neither bracket child is in
the pending set (`submit_bracket_order` appends only the entry id).  When
the parent fills during a matching pass, the two children are stamped with a
fresh shared OCO-group id and appended to the live pending worklist, and
they are eligible *within that same pass* (examined after the point of their
append): concretely, the take-profit child fills in the same pass as its
parent, which cancels its stop-loss sibling, and only the sibling remains
pending afterwards. -/
theorem bracket_children_activation :
    (∀ (st : OrderManager) (e tp sl : Order),
      (submit_bracket_order st e tp sl).1.pending = st.pending ++ [e.order_id]) ∧
    brMgr.pending = ["E"] ∧
    brRes.2 = [("E", 100), ("T", 101)] ∧
    (getL brRes.1.orders "T").bind Order.oco_id = (getL brRes.1.orders "S").bind Order.oco_id ∧
    ((getL brRes.1.orders "T").bind Order.oco_id).isSome ∧
    (getL brRes.1.orders "S").map Order.status = some OrderStatus.cancelled ∧
    brRes.1.pending = ["S"] := by
  constructor
  · intro st e tp sl
    simp only [submit_bracket_order, submit_order]
    cases ho : e.oco_id <;> simp [ho]
  refine ⟨?_, ?_⟩
  · simp [brMgr, entryE, tpT, slS, submit_bracket_order, submit_order, OrderManager.empty]
  simp [brRes, brMgr, entryE, tpT, slS, exampleBar, process_pending, ppAux,
    submit_bracket_order, submit_order, OrderManager.empty, fillStep, tryFill, getL,
    updList, freshOcoId, cancelSiblingsOrders, Order.is_buy, Order.is_sell, Order.is_active]
  norm_num [ppAux, fillStep, tryFill, getL, updList, cancelSiblingsOrders,
    Order.is_buy, Order.is_sell, Order.is_active]

/-! Section: C1: matching is skipped when trading is blocked -/

/-- In `RiskManager.update`, every result with `can_trade = false` also has
`close_positions = true` (the three violation branches). -/
theorem riskUpdate_close_of_not_trade (cfg : PropFirmConfig) (rs : RiskState)
    (ts : Timestamp) (e : ℚ) :
    (riskUpdate cfg rs ts e).2.can_trade = false →
    (riskUpdate cfg rs ts e).2.close_positions = true := by
  simp only [riskUpdate]
  split_ifs <;> simp

/-- Claim C1 (amended): At a step whose risk result has `canTrade = false`,
`process_pending` is *not* invoked: when there are no open positions the
step returns with the broker completely untouched and an empty fill list
(the loop `continue`s before matching), and when there are open positions
the step aborts with the `AttributeError` of the close-order loop.  Pending
orders are not resolved against that bar in either case. -/
theorem skip_matching_when_blocked (cfg : PropFirmConfig)
    (contracts : List (String × ContractSpec)) (comm : ℚ)
    (strat : EngineState → EngineState) (es : EngineState) (ts : Timestamp)
    (bars : List (String × Bar))
    (h : (riskUpdate cfg es.risk ts es.equity).2.can_trade = false) :
    (close_all_positions es.broker ts = [] →
      runStep cfg contracts comm strat es ts bars =
        Except.ok ({ es with risk := (riskUpdate cfg es.risk ts es.equity).1 }, [])) ∧
    (close_all_positions es.broker ts ≠ [] →
      runStep cfg contracts comm strat es ts bars = Except.error attrErrorMsg) := by
  have hcp := riskUpdate_close_of_not_trade cfg es.risk ts es.equity h
  constructor
  · intro hemp
    simp [runStep, hemp, h, hcp]
  · intro hne
    simp [runStep, h, hcp, List.isEmpty_iff, hne]

/-- Witness for C1 (amended): the concrete blocked step with no open
positions (its close-order list is empty). -/
theorem skip_matching_when_blocked_witness :
    runStep cfgT [] 0 id esPendingOnly tClose [("MES", exampleBar)] =
      Except.ok ({ esPendingOnly with
        risk := (riskUpdate cfgT esPendingOnly.risk tClose esPendingOnly.equity).1 }, []) := by
  have hct : (riskUpdate cfgT esPendingOnly.risk tClose esPendingOnly.equity).2.can_trade = false := by
    norm_num [riskUpdate, dayRollover, RiskState.init, cfgT, esPendingOnly, tClose]
  have hemp : close_all_positions esPendingOnly.broker tClose = [] := by
    simp [close_all_positions, esPendingOnly, submit_order, OrderManager.empty, limitBuy99]
  exact (skip_matching_when_blocked cfgT [] 0 id esPendingOnly tClose
    [("MES", exampleBar)] hct).1 hemp

/-- Counterexample to claim C1: a session-close step (`canTrade = false`) with
a pending limit buy that the bar would fill (`tryFill = some 99`): the step
completes with *no* fills and the broker bit-for-bit unchanged — the pending
order was not resolved, i.e. `process_pending` was not invoked on that bar. -/
theorem matching_skipped_counterexample :
    (riskUpdate cfgT esPendingOnly.risk tClose esPendingOnly.equity).2.can_trade = false ∧
    esPendingOnly.broker.pending = ["A"] ∧
    tryFill limitBuy99 exampleBar = some 99 ∧
    (runStep cfgT [] 0 id esPendingOnly tClose [("MES", exampleBar)]).map
      (fun r => (r.1.broker, r.2)) = Except.ok (esPendingOnly.broker, []) := by
  have hct : (riskUpdate cfgT esPendingOnly.risk tClose esPendingOnly.equity).2.can_trade = false := by
    norm_num [riskUpdate, dayRollover, RiskState.init, cfgT, esPendingOnly, tClose]
  have hemp : close_all_positions esPendingOnly.broker tClose = [] := by
    simp [close_all_positions, esPendingOnly, submit_order, OrderManager.empty, limitBuy99]
  have hcp := riskUpdate_close_of_not_trade cfgT esPendingOnly.risk tClose esPendingOnly.equity hct
  have hrun : runStep cfgT [] 0 id esPendingOnly tClose [("MES", exampleBar)] =
      Except.ok ({ esPendingOnly with
        risk := (riskUpdate cfgT esPendingOnly.risk tClose esPendingOnly.equity).1 }, []) := by
    simp [runStep, hemp, hct, hcp]
  refine ⟨hct, ?_, ?_, ?_⟩
  · simp [esPendingOnly, submit_order, OrderManager.empty, limitBuy99]
  · norm_num [tryFill, limitBuy99, exampleBar, Order.is_buy]
  · rw [hrun]
    rfl

/-! Section: C3: the forced-liquidation path crashes before submitting -/

/-- Claim C3 fails on the code: with an open long position of 2 MES at a
session-close step, `close_all_positions` does synthesize the one opposite
market order — but the loop that should submit it executes
`order.status = Order.OrderStatus.PENDING`, which raises `AttributeError`
(the `Order` dataclass has no `OrderStatus` attribute), so the close orders
are never submitted and never reach the pending set; moreover
`close_positions = true` always comes with `can_trade = false`, whose
`continue` would skip the matching pass for that bar anyway. -/
theorem close_positions_crashes :
    close_all_positions esWithPos.broker tClose =
      [{ symbol := "MES", side := OrderSide.sell, size := -2,
         order_type := OrderType.market, order_id := "close-MES",
         timestamp := some tClose }] ∧
    (riskUpdate cfgT esWithPos.risk tClose esWithPos.equity).2.close_positions = true ∧
    runStep cfgT [] 0 id esWithPos tClose [("MES", exampleBar)] = Except.error attrErrorMsg := by
  have hcl : close_all_positions esWithPos.broker tClose =
      [{ symbol := "MES", side := OrderSide.sell, size := -2,
         order_type := OrderType.market, order_id := "close-MES",
         timestamp := some tClose }] := by
    norm_num [close_all_positions, esWithPos, OrderManager.empty]
    decide
  have hcp : (riskUpdate cfgT esWithPos.risk tClose esWithPos.equity).2.close_positions = true := by
    norm_num [riskUpdate, dayRollover, RiskState.init, cfgT, esWithPos, tClose]
  refine ⟨hcl, hcp, ?_⟩
  simp [runStep, hcp, hcl]

/-! Section: C10 — stop-limit orders never match -/

/-- One OCO-cascade iteration changes the order stored under any key `k`
either not at all or only by setting its status to `cancelled`. -/
theorem cancelOneSibling_getL (keep lid k : String) (os : List (String × Order)) :
    getL (cancelOneSibling keep os lid) k = getL os k ∨
    (∃ lo, getL os k = some lo ∧
      getL (cancelOneSibling keep os lid) k = some { lo with status := OrderStatus.cancelled }) := by
  unfold cancelOneSibling
  by_cases hkeep : lid ≠ keep
  · simp only [if_pos hkeep]
    cases hl : getL os lid with
    | none => left; rfl
    | some lo =>
        cases hact : lo.is_active with
        | false => simp only [hact]; left; rfl
        | true =>
            simp only [hact]
            by_cases hlk : lid = k
            · subst hlk
              right
              exact ⟨lo, hl, getL_updList_self os lid _⟩
            · left
              exact getL_updList_ne os lid k _ (fun h => hlk h.symm)
  · simp only [if_neg hkeep]
    left; trivial

/-- The whole OCO cascade changes the order stored under any key `k` either
not at all or only by setting its status to `cancelled`. -/
theorem cancelSiblings_preserve (grp : List String) (keep k : String) :
    ∀ (os : List (String × Order)),
      getL (cancelSiblingsOrders os grp keep) k = getL os k ∨
      (∃ lo, getL os k = some lo ∧
        getL (cancelSiblingsOrders os grp keep) k = some { lo with status := OrderStatus.cancelled }) := by
  induction grp with
  | nil => intro os; left; rfl
  | cons hd tl ih =>
      intro os
      have hstep : cancelSiblingsOrders os (hd :: tl) keep =
          cancelSiblingsOrders (cancelOneSibling keep os hd) tl keep := rfl
      rw [hstep]
      have h1 := cancelOneSibling_getL keep hd k os
      have h2 := ih (cancelOneSibling keep os hd)
      rcases h2 with h2 | ⟨lo', hmid, hfin⟩
      · rcases h1 with h1 | ⟨lo, hos, hmid'⟩
        · left; rw [h2, h1]
        · right; exact ⟨lo, hos, by rw [h2, hmid']⟩
      · rcases h1 with h1 | ⟨lo, hos, hmid'⟩
        · right
          refine ⟨lo', ?_, hfin⟩
          rw [← h1]; exact hmid
        · right
          refine ⟨lo, hos, ?_⟩
          rw [hmid'] at hmid
          have hl : lo' = { lo with status := OrderStatus.cancelled } := (Option.some.inj hmid).symm
          rw [hfin, hl]

/-- Stamping a bracket child with a group id changes the order stored under
any key `k` either not at all or only by setting its `oco_id`. -/
theorem stampOco_getL (g cid k : String) (os : List (String × Order)) :
    getL (stampOco g os cid) k = getL os k ∨
    (∃ co, getL os k = some co ∧
      getL (stampOco g os cid) k = some { co with oco_id := some g }) := by
  unfold stampOco
  cases hl : getL os cid with
  | none => left; rfl
  | some co =>
      by_cases hc : cid = k
      · subst hc
        right
        exact ⟨co, hl, getL_updList_self os cid _⟩
      · left
        exact getL_updList_ne os cid k _ (fun h => hc h.symm)

/-- Processing a fill for order `oid` leaves every *other* order's kind
unchanged and changes its status at most to `cancelled`. -/
theorem fillStep_preserve (ts : Timestamp) (oid : String) (o : Order) (fp : ℚ)
    (st : OrderManager) (k : String) (hne : k ≠ oid) (lo : Order)
    (hk : getL st.orders k = some lo) :
    ∃ lo', getL (fillStep ts oid o fp st).1.orders k = some lo' ∧
      lo'.order_type = lo.order_type ∧
      (lo'.status = lo.status ∨ lo'.status = OrderStatus.cancelled) := by
  have h1 : getL (updList st.orders oid
      { o with fill_price := some fp, fill_time := some ts,
               status := OrderStatus.filled }) k = some lo := by
    rw [getL_updList_ne st.orders oid k _ hne]
    exact hk
  simp only [fillStep]
  cases hbr : getL st.bracket_children oid with
  | none =>
      simp only [hbr]
      split
      · rcases cancelSiblings_preserve _ oid k _ with hsame | ⟨lo₂, hmid, hfin⟩
        · exact ⟨lo, by rw [hsame]; exact h1, rfl, Or.inl rfl⟩
        · rw [h1] at hmid
          have : lo₂ = lo := (Option.some.inj hmid).symm
          subst this
          exact ⟨_, hfin, rfl, Or.inr rfl⟩
      · exact ⟨lo, h1, rfl, Or.inl rfl⟩
  | some ch =>
      simp only [hbr]
      have hA : ∃ loA, getL (stampOco (freshOcoId st.nextId)
          (updList st.orders oid
            { o with fill_price := some fp, fill_time := some ts,
                     status := OrderStatus.filled }) ch.1) k = some loA ∧
          loA.order_type = lo.order_type ∧ loA.status = lo.status := by
        rcases stampOco_getL (freshOcoId st.nextId) ch.1 k _ with hsame | ⟨co, hco, hfin⟩
        · exact ⟨lo, by rw [hsame]; exact h1, rfl, rfl⟩
        · rw [h1] at hco
          have : co = lo := (Option.some.inj hco).symm
          subst this
          exact ⟨_, hfin, rfl, rfl⟩
      obtain ⟨loA, hA1, hA2, hA3⟩ := hA
      have hB : ∃ loB, getL (stampOco (freshOcoId st.nextId)
          (stampOco (freshOcoId st.nextId)
            (updList st.orders oid
              { o with fill_price := some fp, fill_time := some ts,
                       status := OrderStatus.filled }) ch.1) ch.2) k = some loB ∧
          loB.order_type = lo.order_type ∧ loB.status = lo.status := by
        rcases stampOco_getL (freshOcoId st.nextId) ch.2 k _ with hsame | ⟨co, hco, hfin⟩
        · exact ⟨loA, by rw [hsame]; exact hA1, hA2, hA3⟩
        · rw [hA1] at hco
          have : co = loA := (Option.some.inj hco).symm
          subst this
          exact ⟨_, hfin, hA2, hA3⟩
      obtain ⟨loB, hB1, hB2, hB3⟩ := hB
      split
      · rcases cancelSiblings_preserve _ oid k _ with hsame | ⟨lo₂, hmid, hfin⟩
        · exact ⟨loB, by rw [hsame]; exact hB1, hB2, Or.inl hB3⟩
        · rw [hB1] at hmid
          have : lo₂ = loB := (Option.some.inj hmid).symm
          subst this
          exact ⟨_, hfin, hB2, Or.inr rfl⟩
      · exact ⟨loB, hB1, hB2, Or.inl hB3⟩

/-- Invariant of the matching worklist: an order of kind `STOP_LIMIT` that is
in the worklist (or already collected as unmatched) is never filled during
the pass, ends up in the unmatched list, keeps its kind, and has its status
changed at most to `cancelled`. -/
theorem ppAux_stop_limit_inv (ts : Timestamp) (bars : List (String × Bar))
    (oid : String) (s₀ : OrderStatus) :
    ∀ (queue : List String) (st : OrderManager) (fills : List (String × ℚ))
      (still : List String),
      (∃ o', getL st.orders oid = some o' ∧ o'.order_type = OrderType.stop_limit ∧
        (o'.status = s₀ ∨ o'.status = OrderStatus.cancelled)) →
      (oid ∈ queue ∨ oid ∈ still) →
      (∀ fp, (oid, fp) ∉ fills) →
      (∃ o', getL (ppAux ts bars queue st fills still).1.orders oid = some o' ∧
        o'.order_type = OrderType.stop_limit ∧
        (o'.status = s₀ ∨ o'.status = OrderStatus.cancelled)) ∧
      oid ∈ (ppAux ts bars queue st fills still).2.2 ∧
      (∀ fp, (oid, fp) ∉ (ppAux ts bars queue st fills still).2.1) := by
  intro queue st fills still
  induction queue, st, fills, still using ppAux.induct ts bars with
  | case1 st fills still =>
      intro hP hmem hfills
      simp only [ppAux]
      refine ⟨hP, ?_, hfills⟩
      rcases hmem with h | h
      · simp at h
      · exact h
  | case2 st fills still oid₁ rest hnone ih =>
      intro hP hmem hfills
      have hneq : oid ≠ oid₁ := by
        intro h
        subst h
        obtain ⟨o', ho', _⟩ := hP
        rw [hnone] at ho'
        exact Option.noConfusion ho'
      simp only [ppAux, hnone]
      apply ih hP ?_ hfills
      rcases hmem with h | h
      · rcases List.mem_cons.mp h with h' | h'
        · exact absurd h' hneq
        · exact Or.inl h'
      · exact Or.inr h
  | case3 st fills still oid₁ rest o ho hbar ih =>
      intro hP hmem hfills
      simp only [ppAux, ho, hbar]
      apply ih hP ?_ hfills
      rcases hmem with h | h
      · rcases List.mem_cons.mp h with h' | h'
        · exact Or.inr (by simp [h'])
        · exact Or.inl h'
      · exact Or.inr (List.mem_append_left _ h)
  | case4 st fills still oid₁ rest o ho bar hbar htf ih =>
      intro hP hmem hfills
      simp only [ppAux, ho, hbar, htf]
      apply ih hP ?_ hfills
      rcases hmem with h | h
      · rcases List.mem_cons.mp h with h' | h'
        · exact Or.inr (by simp [h'])
        · exact Or.inl h'
      · exact Or.inr (List.mem_append_left _ h)
  | case5 st fills still oid₁ rest o ho bar hbar fp htf r ih =>
      intro hP hmem hfills
      have hneq : oid ≠ oid₁ := by
        intro h
        subst h
        obtain ⟨o', ho', hty, _⟩ := hP
        rw [ho] at ho'
        have ho2 : o = o' := Option.some.inj ho'
        rw [tryFill_stop_limit o bar (by rw [ho2, hty])] at htf
        exact Option.noConfusion htf
      simp only [ppAux, ho, hbar, htf]
      apply ih ?_ ?_ ?_
      · obtain ⟨o', ho', hty, hstat⟩ := hP
        obtain ⟨lo', hlo', hty', hstat'⟩ := fillStep_preserve ts oid₁ o fp st oid hneq o' ho'
        refine ⟨lo', hlo', by rw [hty', hty], ?_⟩
        rcases hstat' with h | h
        · rw [h]; exact hstat
        · exact Or.inr h
      · rcases hmem with h | h
        · rcases List.mem_cons.mp h with h' | h'
          · exact absurd h' hneq
          · exact Or.inl (List.mem_append_left _ h')
        · exact Or.inr h
      · intro fp' hmem'
        rcases List.mem_append.mp hmem' with h | h
        · exact hfills fp' h
        · simp at h
          exact hneq h.1

/-- Claim C10: a pending order of kind `STOP_LIMIT` is never filled by
`process_pending` against any bar (no matching rule exists for that
variant): it produces no fill, remains in the pending set, keeps its kind,
and its status can change only to `cancelled` (by an OCO cascade or an
explicit cancel), never to `filled`. -/
theorem stop_limit_never_fills (st : OrderManager) (ts : Timestamp)
    (bars : List (String × Bar)) (oid : String) (o : Order)
    (h1 : getL st.orders oid = some o)
    (h2 : o.order_type = OrderType.stop_limit)
    (h3 : oid ∈ st.pending) :
    (∀ fp, (oid, fp) ∉ (process_pending st ts bars).2) ∧
    oid ∈ (process_pending st ts bars).1.pending ∧
    (∃ o', getL (process_pending st ts bars).1.orders oid = some o' ∧
      o'.order_type = OrderType.stop_limit ∧
      (o'.status = o.status ∨ o'.status = OrderStatus.cancelled)) := by
  have h := ppAux_stop_limit_inv ts bars oid o.status st.pending st [] []
    ⟨o, h1, h2, Or.inl rfl⟩ (Or.inl h3) (by simp)
  simp only [process_pending]
  exact ⟨h.2.2, h.2.1, h.1⟩

/-- Witness for C10 at a concrete stop-limit order and bar. -/
theorem stop_limit_never_fills_witness :
    ("L", (99 : ℚ)) ∉ (process_pending stopLimitMgr ⟨0, 0⟩ [("MES", exampleBar)]).2 ∧
    "L" ∈ (process_pending stopLimitMgr ⟨0, 0⟩ [("MES", exampleBar)]).1.pending := by
  have h := stop_limit_never_fills stopLimitMgr ⟨0, 0⟩ [("MES", exampleBar)] "L" stopLimitOrder
    (by simp [stopLimitMgr, stopLimitOrder, submit_order, OrderManager.empty, getL, updList])
    rfl
    (by simp [stopLimitMgr, stopLimitOrder, submit_order, OrderManager.empty])
  exact ⟨h.1 99, h.2.1⟩

end FB
